import Mathlib

/-!
Shallow embedding of the Amazon book-page field-extraction engine of this
repository.  The canonical implementation is src/examples/nodejs-example.js
(function parseAmazonBook); the React, Next.js, PHP and Dart variants repeat
the same logic.  DOM querying (cheerio), HTTP fetching and JSON.parse are
external collaborators: the document is modelled as the projection the parser
actually reads (node texts, attribute values, the raw markup string), and
JSON.parse is modelled by an explicit JSON parser below.  JavaScript regular
expressions are modelled by specialized matchers that reproduce the
leftmost-match, greedy/lazy backtracking semantics of each concrete pattern.
Strings are processed as lists of characters (Unicode code points, which
agrees with JavaScript UTF-16 semantics on every character these patterns
inspect).
-/

set_option maxRecDepth 4096

/-- Code points matched by the JavaScript whitespace class (backslash-s) and
removed by String.prototype.trim.  The directional marks U+200E and U+200F are
not in this set. -/
def isSpaceJS (c : Char) : Bool :=
  decide (c.toNat ∈ ([9, 10, 11, 12, 13, 32, 160, 0x1680, 0x2028, 0x2029,
    0x202F, 0x205F, 0x3000, 0xFEFF] : List Nat)
    ∨ (0x2000 ≤ c.toNat ∧ c.toNat ≤ 0x200A))

/-- Lower-casing as String.prototype.toLowerCase acts on the characters these
inputs contain: ASCII A-Z and Latin-1 À-Þ (except the multiplication sign). -/
def charLowerJS (c : Char) : Char :=
  let n := c.toNat
  if 65 ≤ n ∧ n ≤ 90 then Char.ofNat (n + 32)
  else if 192 ≤ n ∧ n ≤ 222 ∧ n ≠ 215 then Char.ofNat (n + 32)
  else c

/-- Upper-casing as String.prototype.toUpperCase acts on the characters these
inputs contain: ASCII a-z and Latin-1 à-þ (except the division sign). -/
def charUpperJS (c : Char) : Char :=
  let n := c.toNat
  if 97 ≤ n ∧ n ≤ 122 then Char.ofNat (n - 32)
  else if 224 ≤ n ∧ n ≤ 254 ∧ n ≠ 247 then Char.ofNat (n - 32)
  else c

def isDigitB (c : Char) : Bool := decide (48 ≤ c.toNat ∧ c.toNat ≤ 57)

def isAsciiUpperB (c : Char) : Bool := decide (65 ≤ c.toNat ∧ c.toNat ≤ 90)

def isAsciiLowerB (c : Char) : Bool := decide (97 ≤ c.toNat ∧ c.toNat ≤ 122)

/-- Character class of the pattern open-bracket A-Z0-9 close-bracket under the
ignore-case flag: ASCII letters of either case and digits. -/
def isAlnumCI (c : Char) : Bool := isDigitB c || isAsciiUpperB c || isAsciiLowerB c

def isUpperAlnum (c : Char) : Bool := isDigitB c || isAsciiUpperB c

/-- Character class of the ISBN-10 capture: digits and the letter X (either
case, because of the ignore-case flag). -/
def isIsbn10Char (c : Char) : Bool := isDigitB c || c = 'X' || c = 'x'

/-- Character class of the ISBN-13 capture: digits and hyphens. -/
def isIsbn13Char (c : Char) : Bool := isDigitB c || c = '-'

/-- Characters matched by the label separator class, colon or whitespace. -/
def isColonWs (c : Char) : Bool := c = ':' || isSpaceJS c

/-- Word characters for the word-boundary assertion. -/
def isWordChar (c : Char) : Bool := isAlnumCI c || c = '_'

def toLowerJS (s : String) : String := String.mk (s.toList.map charLowerJS)

/-- String.prototype.trim: strip JavaScript whitespace from both ends. -/
def trimJS (s : String) : String :=
  String.mk (((s.toList.dropWhile isSpaceJS).reverse.dropWhile isSpaceJS).reverse)

/-- Does the character list start with the given list (exact comparison)? -/
def leadsWith : List Char → List Char → Bool
  | [], _ => true
  | _ :: _, [] => false
  | p :: ps, c :: cs => p = c && leadsWith ps cs

/-- Substring containment on character lists (String.prototype.includes). -/
def listContains (pat : List Char) : List Char → Bool
  | [] => leadsWith pat []
  | c :: cs => leadsWith pat (c :: cs) || listContains pat cs

/-- String.prototype.includes. -/
def containsStr (hay pat : String) : Bool := listContains pat.toList hay.toList

/-- Consume a lower-case literal case-insensitively (the ignore-case flag):
succeeds when the text starts with the literal up to case, returning the rest. -/
def stripLitCI : List Char → List Char → Option (List Char)
  | [], l => some l
  | _ :: _, [] => none
  | p :: ps, c :: cs => if charLowerJS c = p then stripLitCI ps cs else none

/-- Leftmost-match scan: try the position matcher at every start position from
left to right and return the first success, as JavaScript String.match does. -/
def scanL {α : Type} (m : List Char → Option α) : List Char → Option α
  | [] => m []
  | c :: cs =>
    match m (c :: cs) with
    | some a => some a
    | none => scanL m cs

/-- Leftmost-match scan that hands the matcher the preceding character, for
patterns with a leading word-boundary assertion. -/
def scanB {α : Type} (m : Option Char → List Char → Option α) :
    Option Char → List Char → Option α
  | prev, [] => m prev []
  | prev, c :: cs =>
    match m prev (c :: cs) with
    | some a => some a
    | none => scanB m (some c) cs

/-- Numeric value of a digit capture (parseInt on an all-digit string). -/
def digitsToNat (l : List Char) : Nat :=
  l.foldl (fun n c => n * 10 + (c.toNat - 48)) 0

/-- Truthiness of a JavaScript string-or-undefined value: undefined and the
empty string are falsy. -/
def jsTruthyS : Option String → Bool
  | none => false
  | some s => decide (s ≠ "")

/-- Position matcher for the ISBN-10 pattern: the label ISBN-10, one or more
colon-or-whitespace characters (greedy, and no backtrack can succeed because
the separator class and the capture class are disjoint), then exactly ten
digit-or-X characters, captured. -/
def matchIsbn10At (l : List Char) : Option (List Char) :=
  match stripLitCI "isbn-10".toList l with
  | none => none
  | some r =>
    if r.takeWhile isColonWs = [] then none
    else
      let r2 := r.dropWhile isColonWs
      let cap := r2.take 10
      if cap.length = 10 ∧ cap.all isIsbn10Char then some cap else none

/-- Position matcher for the ISBN-13 pattern: the label ISBN-13, one or more
colon-or-whitespace characters, then a greedy run of 13 to 17 digit-or-hyphen
characters, captured. -/
def matchIsbn13At (l : List Char) : Option (List Char) :=
  match stripLitCI "isbn-13".toList l with
  | none => none
  | some r =>
    if r.takeWhile isColonWs = [] then none
    else
      let run := (r.dropWhile isColonWs).takeWhile isIsbn13Char
      if 13 ≤ run.length then some (run.take 17) else none

/-- The ISBN fields of the record: isbn10 and isbn are set from the first
ISBN-10 match; isbn13 is the first ISBN-13 capture with hyphens removed, and
also becomes isbn when isbn is still unset (falsy).  Returns
(isbn10, isbn13, isbn). -/
def isbnFields (text : String) : Option String × Option String × Option String :=
  let i10 := (scanL matchIsbn10At text.toList).map String.mk
  match scanL matchIsbn13At text.toList with
  | none => (i10, none, i10)
  | some cap =>
    let v := String.mk (cap.filter (fun c => ¬(c = '-')))
    (i10, some v, if jsTruthyS i10 then i10 else some v)

/-- Position matcher for the first ASIN pattern: the label ASIN, one or more
colon-or-whitespace characters, ten alphanumeric characters (captured), then
whitespace or end of input. -/
def matchAsin1At (l : List Char) : Option (List Char) :=
  match stripLitCI "asin".toList l with
  | none => none
  | some r =>
    if r.takeWhile isColonWs = [] then none
    else
      let r2 := r.dropWhile isColonWs
      let cap := r2.take 10
      if cap.length = 10 ∧ cap.all isAlnumCI then
        match r2.drop 10 with
        | [] => some cap
        | c :: _ => if isSpaceJS c then some cap else none
      else none

/-- Position matcher for the second ASIN pattern: a word boundary, the label
ASIN, zero or more colon-or-whitespace characters, ten alphanumeric characters
(captured), then a word boundary. -/
def matchAsin2At (prev : Option Char) (l : List Char) : Option (List Char) :=
  if (match prev with | none => true | some p => !isWordChar p) then
    match stripLitCI "asin".toList l with
    | none => none
    | some r =>
      let r2 := r.dropWhile isColonWs
      let cap := r2.take 10
      if cap.length = 10 ∧ cap.all isAlnumCI then
        match r2.drop 10 with
        | [] => some cap
        | c :: _ => if !isWordChar c then some cap else none
      else none
  else none

/-- Validation applied to an ASIN capture: upper-case it, require exactly ten
alphanumeric characters, and reject candidates made solely of letters. -/
def validateAsin (cap : List Char) : Option String :=
  let p := cap.map charUpperJS
  if (p.length = 10 ∧ p.all isUpperAlnum) ∧ ¬(p ≠ [] ∧ p.all isAsciiUpperB)
  then some (String.mk p) else none

/-- The ASIN resolver: take the first match of the first pattern; if it is
absent or its candidate fails validation, fall through to the first match of
the second pattern. -/
def extractAsin (text : String) : Option String :=
  let t := text.toList
  let fromP2 : Option String :=
    match scanB matchAsin2At none t with
    | some cap => validateAsin cap
    | none => none
  match scanL matchAsin1At t with
  | some cap =>
    match validateAsin cap with
    | some a => some a
    | none => fromP2
  | none => fromP2

/-- Core of the page-count patterns: a greedy nonempty digit run (captured),
optional whitespace, then the literal word for pages. -/
def pagesCore (l : List Char) : Option (List Char) :=
  let ds := l.takeWhile isDigitB
  if ds = [] then none
  else
    let r2 := (l.dropWhile isDigitB).dropWhile isSpaceJS
    if (stripLitCI "páginas".toList r2).isSome then some ds else none

/-- Position matcher for the first page-count pattern (digits then the word
for pages). -/
def matchPages1At (l : List Char) : Option (List Char) := pagesCore l

/-- Position matcher for the second page-count pattern: the label Comprimento,
one or more colon-or-whitespace characters, then digits, optional whitespace
and the word for pages. -/
def matchPages2At (l : List Char) : Option (List Char) :=
  match stripLitCI "comprimento".toList l with
  | none => none
  | some r =>
    if r.takeWhile isColonWs = [] then none
    else pagesCore (r.dropWhile isColonWs)

/-- Position matcher for the third page-count pattern: the label Length, one
or more colon-or-whitespace characters, digits, optional whitespace, then the
English word pages. -/
def matchPages3At (l : List Char) : Option (List Char) :=
  match stripLitCI "length".toList l with
  | none => none
  | some r =>
    if r.takeWhile isColonWs = [] then none
    else
      let r1 := r.dropWhile isColonWs
      let ds := r1.takeWhile isDigitB
      if ds = [] then none
      else
        let r2 := (r1.dropWhile isDigitB).dropWhile isSpaceJS
        if (stripLitCI "pages".toList r2).isSome then some ds else none

/-- The page-count resolver: the three patterns are tried in order and the
first match wins. -/
def extractPageCount (text : String) : Option Nat :=
  let t := text.toList
  match scanL matchPages1At t with
  | some ds => some (digitsToNat ds)
  | none =>
    match scanL matchPages2At t with
    | some ds => some (digitsToNat ds)
    | none =>
      match scanL matchPages3At t with
      | some ds => some (digitsToNat ds)
      | none => none

/-- Variant of the page-count resolver with the second pattern removed (the
comparison target of the refinement claim). -/
def extractPageCountNoSecond (text : String) : Option Nat :=
  let t := text.toList
  match scanL matchPages1At t with
  | some ds => some (digitsToNat ds)
  | none =>
    match scanL matchPages3At t with
    | some ds => some (digitsToNat ds)
    | none => none

/-- Character class of the Portuguese publisher capture under lower-cased
input: ASCII lower-case letters, the Latin-1 range from code 224 to 255,
whitespace, ampersand, hyphen and dot. -/
def pubClassPt (c : Char) : Bool :=
  isAsciiLowerB c || decide (224 ≤ c.toNat ∧ c.toNat ≤ 255) || isSpaceJS c
    || c = '&' || c = '-' || c = '.'

/-- Character class of the English publisher capture: as the Portuguese one
but without the Latin-1 range. -/
def pubClassEn (c : Char) : Bool :=
  isAsciiLowerB c || isSpaceJS c || c = '&' || c = '-' || c = '.'

/-- One or more whitespace characters (greedy; the following literal never
starts with whitespace, so no backtracking can change the outcome). -/
def wsPlus (l : List Char) : Option (List Char) :=
  match l with
  | [] => none
  | c :: cs => if isSpaceJS c then some ((c :: cs).dropWhile isSpaceJS) else none

/-- Tail of the first publisher pattern after the capture: whitespace, the
word data, whitespace, the word da, whitespace, the word for publication. -/
def pubTail1 (l : List Char) : Bool :=
  match wsPlus l with
  | none => false
  | some r1 =>
    match stripLitCI "data".toList r1 with
    | none => false
    | some r2 =>
      match wsPlus r2 with
      | none => false
      | some r3 =>
        match stripLitCI "da".toList r3 with
        | none => false
        | some r4 =>
          match wsPlus r4 with
          | none => false
          | some r5 => (stripLitCI "publicação".toList r5).isSome

/-- Tail of the second publisher pattern: whitespace then the word for
dimensions. -/
def pubTail2 (l : List Char) : Bool :=
  match wsPlus l with
  | none => false
  | some r1 => (stripLitCI "dimensões".toList r1).isSome

/-- Tail of the third publisher pattern: whitespace then the label isbn or the
label asin. -/
def pubTail3 (l : List Char) : Bool :=
  match wsPlus l with
  | none => false
  | some r1 =>
    (stripLitCI "isbn".toList r1).isSome || (stripLitCI "asin".toList r1).isSome

/-- Tail of the English publisher pattern: whitespace, the word publication,
whitespace, the word date. -/
def pubTail4 (l : List Char) : Bool :=
  match wsPlus l with
  | none => false
  | some r1 =>
    match stripLitCI "publication".toList r1 with
    | none => false
    | some r2 =>
      match wsPlus r2 with
      | none => false
      | some r3 => (stripLitCI "date".toList r3).isSome

/-- Lazy one-or-more capture: grow the capture one class character at a time,
trying the pattern tail after each extension, exactly as a lazy quantifier
backtracks.  The fuel bounds the growth by the remaining input length. -/
def lazyGrow (cls : Char → Bool) (tail : List Char → Bool) :
    Nat → List Char → List Char → Option (List Char)
  | 0, _, _ => none
  | fuel + 1, acc, l =>
    match l with
    | [] => none
    | c :: cs =>
      if cls c then
        let acc2 := acc ++ [c]
        if tail cs then some acc2 else lazyGrow cls tail fuel acc2 cs
      else none

/-- Greedy backtracking over the whitespace run that separates the label from
the lazy capture: try consuming j whitespace characters for j from the maximal
run length down to one (the capture class includes whitespace, so a shorter
run hands the leftover whitespace to the capture). -/
def tryWsRuns (cls : Char → Bool) (tail : List Char → Bool) (r : List Char) :
    Nat → Option (List Char)
  | 0 => none
  | j + 1 =>
    match lazyGrow cls tail (r.length + 1) [] (r.drop (j + 1)) with
    | some cap => some cap
    | none => tryWsRuns cls tail r j

/-- Position matcher shared by the four publisher patterns: a label literal,
one or more whitespace characters, a lazy capture over the given class, then
the given tail. -/
def matchPubShapeAt (lit : List Char) (cls : Char → Bool)
    (tail : List Char → Bool) (l : List Char) : Option (List Char) :=
  match stripLitCI lit l with
  | none => none
  | some r => tryWsRuns cls tail r (r.takeWhile isSpaceJS).length

/-- Split a character list at every single space character, as the JavaScript
one-argument split does. -/
def splitSp : List Char → List (List Char)
  | [] => [[]]
  | c :: cs =>
    match splitSp cs with
    | [] => [[c]]
    | h :: t => if c = ' ' then [] :: h :: t else (c :: h) :: t

/-- Capitalize a word: upper-case its first character (the empty word stays
empty, as charAt on an empty string yields the empty string). -/
def capWord : List Char → List Char
  | [] => []
  | c :: cs => charUpperJS c :: cs

/-- Join word lists with single spaces. -/
def joinSpace : List (List Char) → List Char
  | [] => []
  | [w] => w
  | w :: ws => w ++ ' ' :: joinSpace ws

/-- Transform and validate a publisher capture: trim, capitalize each
space-separated word, then require length above one and reject an all-digit
result. -/
def publisherOfCap (cap : List Char) : Option String :=
  let p := (trimJS (String.mk cap)).toList
  let w := joinSpace ((splitSp p).map capWord)
  if 1 < w.length ∧ ¬(w ≠ [] ∧ w.all isDigitB) then some (String.mk w) else none

/-- The publisher resolver: the details text is lower-cased, the four patterns
are tried in order, and the first capture that passes validation wins; a
capture that fails validation falls through to the next pattern. -/
def extractPublisher (text : String) : Option String :=
  let t := (toLowerJS text).toList
  let attempt : List Char → (Char → Bool) → (List Char → Bool) → Option String :=
    fun lit cls tail =>
      match scanL (matchPubShapeAt lit cls tail) t with
      | some cap => publisherOfCap cap
      | none => none
  match attempt "editora".toList pubClassPt pubTail1 with
  | some p => some p
  | none =>
    match attempt "editora".toList pubClassPt pubTail2 with
    | some p => some p
    | none =>
      match attempt "editora".toList pubClassPt pubTail3 with
      | some p => some p
      | none => attempt "publisher".toList pubClassEn pubTail4

/-- The month table of the Node.js implementation: Portuguese and English
month names to two-digit month numbers. -/
def monthTable : List (String × String) :=
  [("janeiro", "01"), ("fevereiro", "02"), ("março", "03"), ("abril", "04"),
   ("maio", "05"), ("junho", "06"), ("julho", "07"), ("agosto", "08"),
   ("setembro", "09"), ("outubro", "10"), ("novembro", "11"), ("dezembro", "12"),
   ("january", "01"), ("february", "02"), ("march", "03"), ("april", "04"),
   ("may", "05"), ("june", "06"), ("july", "07"), ("august", "08"),
   ("september", "09"), ("october", "10"), ("november", "11"), ("december", "12")]

def monthNamesPt : List (List Char) :=
  ["janeiro".toList, "fevereiro".toList, "março".toList, "abril".toList,
   "maio".toList, "junho".toList, "julho".toList, "agosto".toList,
   "setembro".toList, "outubro".toList, "novembro".toList, "dezembro".toList]

def monthNamesEn : List (List Char) :=
  ["january".toList, "february".toList, "march".toList, "april".toList,
   "may".toList, "june".toList, "july".toList, "august".toList,
   "september".toList, "october".toList, "november".toList, "december".toList]

/-- Try each alternative of a month alternation in order, returning the
matched slice of the text and the rest.  No month name is a prefix of
another, so at most one alternative can match at a position. -/
def tryAlts (alts : List (List Char)) (l : List Char) :
    Option (List Char × List Char) :=
  match alts with
  | [] => none
  | a :: as =>
    match stripLitCI a l with
    | some r => some (l.take a.length, r)
    | none => tryAlts as l

/-- Exactly four digits (more digits may follow in the text; the pattern
consumes only four). -/
def digits4 (l : List Char) : Option (List Char × List Char) :=
  let d := l.take 4
  if d.length = 4 ∧ d.all isDigitB then some (d, l.drop 4) else none

/-- Greedy one-or-two-digit day with backtracking: try two digits first, and
retry the whole continuation with one digit if that fails. -/
def tryDay {β : Type} (cont : List Char → List Char → Option β)
    (l : List Char) : Option β :=
  match l with
  | [] => none
  | [c1] => if isDigitB c1 then cont [c1] [] else none
  | c1 :: c2 :: r =>
    if isDigitB c1 then
      match (if isDigitB c2 then cont [c1, c2] r else none) with
      | some b => some b
      | none => cont [c1] (c2 :: r)
    else none

/-- Position matcher for the Portuguese date grammar without the word de:
day, whitespace, month name, whitespace, four-digit year. -/
def matchBrShortAt (l : List Char) : Option (List Char × List Char × List Char) :=
  tryDay (fun day r1 =>
    match wsPlus r1 with
    | none => none
    | some r2 =>
      match tryAlts monthNamesPt r2 with
      | none => none
      | some (mn, r3) =>
        match wsPlus r3 with
        | none => none
        | some r4 =>
          match digits4 r4 with
          | none => none
          | some (y, _) => some (day, mn, y)) l

/-- Position matcher for the Portuguese date grammar with the word de:
day, whitespace, de, whitespace, month name, whitespace, de, whitespace,
four-digit year. -/
def matchBrLongAt (l : List Char) : Option (List Char × List Char × List Char) :=
  tryDay (fun day r1 =>
    match wsPlus r1 with
    | none => none
    | some r2 =>
      match stripLitCI "de".toList r2 with
      | none => none
      | some r3 =>
        match wsPlus r3 with
        | none => none
        | some r4 =>
          match tryAlts monthNamesPt r4 with
          | none => none
          | some (mn, r5) =>
            match wsPlus r5 with
            | none => none
            | some r6 =>
              match stripLitCI "de".toList r6 with
              | none => none
              | some r7 =>
                match wsPlus r7 with
                | none => none
                | some r8 =>
                  match digits4 r8 with
                  | none => none
                  | some (y, _) => some (day, mn, y)) l

/-- Position matcher for the English date grammar: month name, whitespace,
day, optional comma (greedy, with fallback to not consuming it), whitespace,
four-digit year. -/
def matchEnAt (l : List Char) : Option (List Char × List Char × List Char) :=
  match tryAlts monthNamesEn l with
  | none => none
  | some (mn, r1) =>
    match wsPlus r1 with
    | none => none
    | some r2 =>
      tryDay (fun day r3 =>
        let finish : List Char → Option (List Char × List Char × List Char) :=
          fun r =>
            match wsPlus r with
            | none => none
            | some r4 =>
              match digits4 r4 with
              | none => none
              | some (y, _) => some (mn, day, y)
        match r3 with
        | ',' :: r4 =>
          match finish r4 with
          | some z => some z
          | none => finish r3
        | _ => finish r3) r2

/-- Month-table lookup on the lower-cased matched month name, with the
fallback 01 the code supplies. -/
def monthLookup (mn : List Char) : String :=
  match monthTable.find? (fun kv => kv.1 = String.mk (mn.map charLowerJS)) with
  | some kv => kv.2
  | none => "01"

/-- padStart of the day capture to two digits. -/
def pad2 (d : List Char) : List Char := if d.length = 1 then '0' :: d else d

/-- Assemble the ISO output year-month-day from the captures of a date match. -/
def isoDate (day mn y : List Char) : String :=
  String.mk (y ++ '-' :: (monthLookup mn).toList ++ '-' :: pad2 day)

/-- The publication-date resolver of the Node.js and React implementations:
the Portuguese grammar without de, then the Portuguese grammar with de, then
the English grammar, each run against the raw markup; the first grammar that
matches wins. -/
def extractPublishedDate (html : String) : Option String :=
  let t := html.toList
  match scanL matchBrShortAt t with
  | some (day, mn, y) => some (isoDate day mn y)
  | none =>
    match scanL matchBrLongAt t with
    | some (day, mn, y) => some (isoDate day mn y)
    | none =>
      match scanL matchEnAt t with
      | some (mn, day, y) => some (isoDate day mn y)
      | none => none

/-- Modelled from the spec: the numeric day-month-year date grammar (third of
the four grammars the specification lists, one-or-two-digit day and month and
a four-digit year separated by slash, hyphen or dot).  No implementation in
the repository contains this grammar; it is embedded only to witness that the
documented grammar would match inputs the code rejects. -/
def matchNumericDateAt (l : List Char) : Option (List Char × List Char × List Char) :=
  let isSep : Char → Bool := fun c => c = '/' || c = '-' || c = '.'
  tryDay (fun day r1 =>
    match r1 with
    | s1 :: r2 =>
      if isSep s1 then
        tryDay (fun mon r3 =>
          match r3 with
          | s2 :: r4 =>
            if isSep s2 then
              match digits4 r4 with
              | none => none
              | some (y, _) => some (day, mon, y)
            else none
          | [] => none) r2
      else none
    | [] => none) l

/-- Does the spec's numeric date grammar match anywhere in the markup? -/
def specNumericDateMatches (html : String) : Bool :=
  (scanL matchNumericDateAt html.toList).isSome

/-- Try capture starts for the language patterns: the separator run of length
j from the maximal run down to one; at each start the capture is the maximal
run of characters other than newline and semicolon and must be nonempty. -/
def tryLangRuns (r : List Char) : Nat → Option (List Char)
  | 0 => none
  | j + 1 =>
    let cap := (r.drop (j + 1)).takeWhile (fun c => ¬(c = '\n' ∨ c = ';'))
    if cap = [] then tryLangRuns r j else some cap

/-- Position matcher for a language pattern: the given label, one or more
colon-or-whitespace characters (greedy with backtracking, since the capture
class overlaps the separator class), then a nonempty capture running to the
first newline or semicolon. -/
def matchLangAt (lit : List Char) (l : List Char) : Option (List Char) :=
  match stripLitCI lit l with
  | none => none
  | some r => tryLangRuns r (r.takeWhile isColonWs).length

/-- The language table of the Node.js implementation, in insertion order. -/
def languagePairs : List (String × String) :=
  [("português", "pt-BR"), ("portuguese", "pt-BR"), ("inglês", "en"),
   ("english", "en"), ("espanhol", "es"), ("spanish", "es"), ("francês", "fr"),
   ("french", "fr"), ("alemão", "de"), ("german", "de"), ("italiano", "it"),
   ("italian", "it")]

/-- Map a language capture to a code: trim, lower-case, then accept the first
table entry whose key the value contains. -/
def languageOfCap (cap : List Char) : Option String :=
  let lt := toLowerJS (trimJS (String.mk cap))
  (languagePairs.find? (fun kv => containsStr lt kv.1)).map (fun kv => kv.2)

/-- The language resolver: the Idioma pattern then the Language pattern; a
capture that maps to no table entry falls through to the next pattern. -/
def extractLanguage (text : String) : Option String :=
  let t := text.toList
  let fromP2 : Option String :=
    match scanL (matchLangAt "language".toList) t with
    | some cap => languageOfCap cap
    | none => none
  match scanL (matchLangAt "idioma".toList) t with
  | some cap =>
    match languageOfCap cap with
    | some v => some v
    | none => fromP2
  | none => fromP2

/-- The category table of the Node.js implementation, in insertion order. -/
def categoryPairs : List (String × String) :=
  [("ficção", "Fiction"), ("fiction", "Fiction"), ("romance", "Romance"),
   ("fantasia", "Fantasy"), ("fantasy", "Fantasy"), ("mistério", "Mystery"),
   ("mystery", "Mystery"), ("terror", "Horror"), ("horror", "Horror"),
   ("suspense", "Thriller"), ("thriller", "Thriller")]

/-- Acceptance test a trimmed breadcrumb text must pass: nonempty, length
strictly between 3 and 50, not containing the exact substring Livros
(case-sensitive, as the code tests it), and its lower-cased form containing
none of home, kindle and store. -/
def catAcceptB (text : String) : Bool :=
  decide (text ≠ "" ∧ 3 < text.length ∧ text.length < 50
    ∧ containsStr text "Livros" = false
    ∧ containsStr (toLowerJS text) "home" = false
    ∧ containsStr (toLowerJS text) "kindle" = false
    ∧ containsStr (toLowerJS text) "store" = false)

/-- One step of the per-node category table walk: add the canonical name when
the lower-cased node text contains the keyword and the name is not already
accumulated. -/
def catStep (normalized : String) (acc2 : List String) (kv : String × String) :
    List String :=
  if containsStr normalized kv.1 = true ∧ ¬(kv.2 ∈ acc2) then acc2 ++ [kv.2]
  else acc2

/-- Processing of one breadcrumb node: trim, test acceptance, then walk the
category table. -/
def catNodeStep (acc : List String) (node : String) : List String :=
  let text := trimJS node
  if catAcceptB text = true then categoryPairs.foldl (catStep (toLowerJS text)) acc
  else acc

/-- The category resolver: each breadcrumb text is trimmed and filtered by
the acceptance test; an accepted text contributes, in table order, every
canonical category whose keyword its lower-cased form contains and that is
not already in the accumulator. -/
def extractCategories (nodes : List String) : List String :=
  nodes.foldl catNodeStep []

/-- The title resolver: trimmed text of the title node, omitted when empty. -/
def extractTitle (t : String) : Option String :=
  let s := trimJS t
  if s = "" then none else some s

/-- The author resolver: trim each author-node text, drop empties, texts
containing an opening parenthesis and duplicates, preserving first-seen
order; the field is omitted when no author survives. -/
def extractAuthors (nodes : List String) : Option (List String) :=
  let as := nodes.foldl
    (fun acc n =>
      let a := trimJS n
      if a ≠ "" ∧ containsStr a "(" = false ∧ ¬(a ∈ acc)
      then acc ++ [a] else acc)
    []
  if as = [] then none else some as

/-- The description resolver: the three selector texts in priority order; the
first whose trimmed text is nonempty and longer than 50 characters wins. -/
def extractDescription (d1 d2 d3 : String) : Option String :=
  let pick : String → Option String := fun d =>
    let s := trimJS d
    if s ≠ "" ∧ 50 < s.length then some s else none
  match pick d1 with
  | some s => some s
  | none =>
    match pick d2 with
    | some s => some s
    | none => pick d3

/-- JSON whitespace. -/
def jsonWs (c : Char) : Bool := c = ' ' || c = '\t' || c = '\n' || c = '\r'

/-- Value of a hexadecimal digit. -/
def hexVal (c : Char) : Option Nat :=
  let n := c.toNat
  if 48 ≤ n ∧ n ≤ 57 then some (n - 48)
  else if 97 ≤ n ∧ n ≤ 102 then some (n - 87)
  else if 65 ≤ n ∧ n ≤ 70 then some (n - 55)
  else none

/-- Parse the remainder of a JSON string after its opening quote, decoding
escapes; returns the decoded content and the rest of the input.  A unicode
escape denoting a lone surrogate is not representable as a code point and
decodes to the null character (a modelling boundary no claim depends on). -/
def jsonStringRest : Nat → List Char → Option (List Char × List Char)
  | 0, _ => none
  | _ + 1, [] => none
  | _ + 1, '"' :: r => some ([], r)
  | fuel + 1, '\\' :: r =>
    match r with
    | [] => none
    | e :: r1 =>
      let cont : Char → List Char → Option (List Char × List Char) :=
        fun ch rest =>
          match jsonStringRest fuel rest with
          | some (s, r2) => some (ch :: s, r2)
          | none => none
      match e with
      | '"' => cont '"' r1
      | '\\' => cont '\\' r1
      | '/' => cont '/' r1
      | 'b' => cont (Char.ofNat 8) r1
      | 'f' => cont (Char.ofNat 12) r1
      | 'n' => cont '\n' r1
      | 'r' => cont (Char.ofNat 13) r1
      | 't' => cont '\t' r1
      | 'u' =>
        match r1 with
        | a :: b :: c :: d :: r2 =>
          match hexVal a, hexVal b, hexVal c, hexVal d with
          | some ha, some hb, some hc, some hd =>
            cont (Char.ofNat (((ha * 16 + hb) * 16 + hc) * 16 + hd)) r2
          | _, _, _, _ => none
        | _ => none
      | _ => none
  | fuel + 1, c :: r =>
    if c.toNat < 32 then none
    else
      match jsonStringRest fuel r with
      | some (s, r2) => some (c :: s, r2)
      | none => none

/-- Parse a JSON number (strict JSON grammar), returning the rest. -/
def jsonNumber (l : List Char) : Option (List Char) :=
  let intRest : List Char → Option (List Char) := fun l1 =>
    match l1 with
    | '0' :: r => some r
    | c :: r =>
      if isDigitB c ∧ c ≠ '0' then some (r.dropWhile isDigitB) else none
    | [] => none
  let l0 := match l with | '-' :: r => r | _ => l
  match intRest l0 with
  | none => none
  | some r1 =>
    let r2 :=
      match r1 with
      | '.' :: r =>
        if (r.takeWhile isDigitB) = [] then none
        else some (r.dropWhile isDigitB)
      | _ => some r1
    match r2 with
    | none => none
    | some r3 =>
      match r3 with
      | 'e' :: r => jsonExpRest r
      | 'E' :: r => jsonExpRest r
      | _ => some r3
where
  jsonExpRest : List Char → Option (List Char) := fun r =>
    let r0 := match r with | '+' :: r1 => r1 | '-' :: r1 => r1 | _ => r
    if (r0.takeWhile isDigitB) = [] then none else some (r0.dropWhile isDigitB)

/-- Single fueled interpreter for the JSON grammar, in structural recursion
on the fuel so that concrete runs reduce in the kernel.  Mode 0 parses one
value (leading whitespace already skipped); mode 1 parses an object body
after its opening brace; mode 2 parses the member list of an object from the
start of a key, accumulating keys in insertion order (a repeated key keeps
its first position, as JavaScript object keys do); mode 3 parses the
elements of a nonempty array from the start of a value.  The key list of the
result is meaningful in modes 1 and 2 and empty otherwise. -/
def jsonRun : Nat → Nat → List Char → List String → Option (List String × List Char)
  | 0, _, _, _ => none
  | fuel + 1, mode, l, acc =>
    if mode = 0 then
      match l with
      | '"' :: r =>
        match jsonStringRest (r.length + 1) r with
        | some (_, r2) => some ([], r2)
        | none => none
      | '{' :: r =>
        match jsonRun fuel 1 r [] with
        | some (_, r2) => some ([], r2)
        | none => none
      | '[' :: r =>
        match r.dropWhile jsonWs with
        | ']' :: r2 => some ([], r2)
        | r1 => jsonRun fuel 3 r1 []
      | 't' :: 'r' :: 'u' :: 'e' :: r => some ([], r)
      | 'f' :: 'a' :: 'l' :: 's' :: 'e' :: r => some ([], r)
      | 'n' :: 'u' :: 'l' :: 'l' :: r => some ([], r)
      | _ =>
        match jsonNumber l with
        | some r => some ([], r)
        | none => none
    else if mode = 1 then
      match l.dropWhile jsonWs with
      | '}' :: r => some ([], r)
      | l1 => jsonRun fuel 2 l1 []
    else if mode = 2 then
      match l with
      | '"' :: r =>
        match jsonStringRest (r.length + 1) r with
        | none => none
        | some (key, r2) =>
          let ks := String.mk key
          let acc2 := if ks ∈ acc then acc else acc ++ [ks]
          match r2.dropWhile jsonWs with
          | ':' :: r4 =>
            match jsonRun fuel 0 (r4.dropWhile jsonWs) [] with
            | none => none
            | some (_, r5) =>
              match r5.dropWhile jsonWs with
              | ',' :: r7 => jsonRun fuel 2 (r7.dropWhile jsonWs) acc2
              | '}' :: r7 => some (acc2, r7)
              | _ => none
          | _ => none
      | _ => none
    else
      match jsonRun fuel 0 l [] with
      | none => none
      | some (_, r) =>
        match r.dropWhile jsonWs with
        | ',' :: r2 => jsonRun fuel 3 (r2.dropWhile jsonWs) []
        | ']' :: r2 => some ([], r2)
        | _ => none

/-- JSON.parse followed by Object.keys, for an attribute value that starts
with an opening brace: parse the object, require only whitespace after it,
and return its keys; any violation of the JSON grammar yields none (the
exception path of JSON.parse). -/
def jsonObjectKeys (s : String) : Option (List String) :=
  match s.toList with
  | '{' :: r =>
    match jsonRun (2 * s.length + 16) 1 r [] with
    | some (keys, rest) =>
      if rest.dropWhile jsonWs = [] then some keys else none
    | none => none
  | _ => none

/-- Does the string start with an opening brace? -/
def startsWithBrace (s : String) : Bool :=
  match s.toList with
  | c :: _ => c = '{'
  | [] => false

/-- The three attributes of the chosen image node, each possibly absent. -/
structure ImgAttrs where
  hires : Option String
  src : Option String
  dyn : Option String

/-- The attribute precedence chain with JavaScript or-semantics: the first
truthy of data-old-hires, src and data-a-dynamic-image (an empty-string
attribute is falsy and skipped). -/
def chooseImgSrc (a : ImgAttrs) : Option String :=
  if jsTruthyS a.hires then a.hires
  else if jsTruthyS a.src then a.src
  else a.dyn

/-- Image URL from a truthy chosen attribute value: a value starting with an
opening brace is parsed as JSON, a nonempty object yields its first key, an
empty object yields nothing, and a parse failure falls back to the raw value;
any other value is used as is. -/
def imageFromSrc (s : String) : Option String :=
  if startsWithBrace s = true then
    match jsonObjectKeys s with
    | some keys =>
      match keys with
      | [] => none
      | k :: _ => some k
    | none => some s
  else some s

/-- The cover-image resolver: absent image node or falsy chosen attribute
yields no field; otherwise the value is interpreted by imageFromSrc. -/
def extractImage (img : Option ImgAttrs) : Option String :=
  match img with
  | none => none
  | some a =>
    match chooseImgSrc a with
    | some s => if s = "" then none else imageFromSrc s
    | none => none

/-- The projection of the product page the parser reads: the raw markup, the
title-node text, the author-node texts, the image-node attributes (absent
when no image node matches), the three description-selector texts, the five
details-selector texts and the breadcrumb-anchor texts.  A selector that
matches nothing contributes the empty text, which is what the DOM library
returns for an empty selection. -/
structure Doc where
  html : String
  title : String
  authorNodes : List String
  img : Option ImgAttrs
  desc1 : String
  desc2 : String
  desc3 : String
  details : List String
  catNodes : List String

/-- The details text: every nonempty details-selector text is appended to the
accumulator preceded by a single space. -/
def detailsTextOf (details : List String) : String :=
  details.foldl (fun acc t => if t = "" then acc else acc ++ " " ++ t) ""

/-- The output record: twelve extracted fields plus the derived isbn, each
independently optional. -/
structure BookRecord where
  title : Option String
  authors : Option (List String)
  imageUrl : Option String
  description : Option String
  isbn10 : Option String
  isbn13 : Option String
  isbn : Option String
  asin : Option String
  publisher : Option String
  publishedDate : Option String
  pageCount : Option Nat
  language : Option String
  categories : Option (List String)

/-- The record with every field absent. -/
def BookRecord.empty : BookRecord :=
  ⟨none, none, none, none, none, none, none, none, none, none, none, none, none⟩

/-- The whole extraction, field by field as the Node.js parseAmazonBook
builds its result object. -/
def parseAmazonBook (d : Doc) : BookRecord :=
  let detailsText := detailsTextOf d.details
  let fields := isbnFields detailsText
  let cs := extractCategories d.catNodes
  ⟨extractTitle d.title,
   extractAuthors d.authorNodes,
   extractImage d.img,
   extractDescription d.desc1 d.desc2 d.desc3,
   fields.1,
   fields.2.1,
   fields.2.2,
   extractAsin detailsText,
   extractPublisher detailsText,
   extractPublishedDate d.html,
   extractPageCount detailsText,
   extractLanguage detailsText,
   if cs = [] then none else some cs⟩

/-- The document on which every selector is empty. -/
def emptyDoc : Doc :=
  ⟨"", "", [], none, "", "", "", ["", "", "", "", ""], []⟩

/-- A document whose only details container carries the publisher label with
the directional marks U+200F and U+200E embedded, as the retailer emits it. -/
def marksDoc : Doc :=
  ⟨"", "", [], none, "", "", "",
   ["editora\u200F : \u200Fsuma data da publicação", "", "", "", ""], []⟩

/-- The same document with the directional marks and the separating colon
removed, the shape the repository documentation shows for the unified details
text. -/
def cleanDoc : Doc :=
  ⟨"", "", [], none, "", "", "", ["editora suma data da publicação", "", "", "", ""], []⟩

/-- A document whose image node offers an empty JSON object as its only
attribute value. -/
def jsonDoc : Doc :=
  ⟨"", "", [], none, "", "", "", ["", "", "", "", ""], []⟩

/-- The same document with the dynamic-image attribute routed through the
high-resolution slot the precedence chain reads first. -/
def imgEmptyJsonDoc : Doc :=
  ⟨"", "", [], some ⟨some "{}", none, none⟩, "", "", "", ["", "", "", "", ""], []⟩

/-- A document whose details text carries both an ISBN-10 and an ISBN-13. -/
def isbnDoc : Doc :=
  ⟨"", "", [], none, "", "", "",
   ["ISBN-10: 8556512666 ISBN-13: 978-85-5651-266-6", "", "", "", ""], []⟩

theorem scanL_prop {α : Type} (m : List Char → Option α) (P : α → Prop)
    (h : ∀ l a, m l = some a → P a) :
    ∀ l a, scanL m l = some a → P a := by
  intro l
  induction l with
  | nil =>
    intro a ha
    exact h [] a (by simpa [scanL] using ha)
  | cons c cs ih =>
    intro a ha
    cases hm : m (c :: cs) with
    | some b =>
      have hb : scanL m (c :: cs) = some b := by simp [scanL, hm]
      rw [hb] at ha
      cases ha
      exact h _ _ hm
    | none =>
      have hb : scanL m (c :: cs) = scanL m cs := by simp [scanL, hm]
      rw [hb] at ha
      exact ih a ha

theorem scanL_some_exists {α : Type} (m : List Char → Option α) :
    ∀ l a, scanL m l = some a → ∃ l', l' <:+ l ∧ m l' = some a := by
  intro l
  induction l with
  | nil =>
    intro a ha
    exact ⟨[], List.suffix_refl [], by simpa [scanL] using ha⟩
  | cons c cs ih =>
    intro a ha
    cases hm : m (c :: cs) with
    | some b =>
      have hb : scanL m (c :: cs) = some b := by simp [scanL, hm]
      rw [hb] at ha
      cases ha
      exact ⟨c :: cs, List.suffix_refl _, hm⟩
    | none =>
      have hb : scanL m (c :: cs) = scanL m cs := by simp [scanL, hm]
      rw [hb] at ha
      obtain ⟨l', hs, hm'⟩ := ih a ha
      exact ⟨l', hs.trans (List.suffix_cons c cs), hm'⟩

theorem scanL_isSome_of_suffix {α : Type} (m : List Char → Option α) :
    ∀ l l', l' <:+ l → (m l').isSome = true → (scanL m l).isSome = true := by
  intro l
  induction l with
  | nil =>
    intro l' hs hm
    have : l' = [] := List.suffix_nil.mp hs
    subst this
    simpa [scanL] using hm
  | cons c cs ih =>
    intro l' hs hm
    rcases hs with ⟨t, ht⟩
    cases t with
    | nil =>
      simp only [List.nil_append] at ht
      subst ht
      cases hmm : m (c :: cs) with
      | some b => simp [scanL, hmm]
      | none => rw [hmm] at hm; simp at hm
    | cons x xs =>
      have hx : x = c ∧ xs ++ l' = cs := by
        constructor
        · exact (List.cons.injEq x (xs ++ l') c cs).mp (by simpa using ht) |>.1
        · exact (List.cons.injEq x (xs ++ l') c cs).mp (by simpa using ht) |>.2
      cases hmm : m (c :: cs) with
      | some b => simp [scanL, hmm]
      | none =>
        have hrec := ih l' ⟨xs, hx.2⟩ hm
        simpa [scanL, hmm] using hrec

theorem stripLitCI_suffix :
    ∀ pat l r, stripLitCI pat l = some r → r <:+ l := by
  intro pat
  induction pat with
  | nil =>
    intro l r h
    simp [stripLitCI] at h
    subst h
    exact List.suffix_refl _
  | cons p ps ih =>
    intro l r h
    cases l with
    | nil => simp [stripLitCI] at h
    | cons c cs =>
      rw [stripLitCI] at h
      split_ifs at h with hc
      · exact (ih cs r h).trans (List.suffix_cons c cs)

theorem matchIsbn10At_length :
    ∀ l cap, matchIsbn10At l = some cap → cap.length = 10 := by
  intro l cap h
  unfold matchIsbn10At at h
  cases hs : stripLitCI ("isbn-10".toList) l with
  | none => rw [hs] at h; exact Option.noConfusion h
  | some r =>
    rw [hs] at h
    simp only [] at h
    split_ifs at h with h1 h2
    · cases h
      exact h2.1

theorem scan_isbn10_ne_empty (t : List Char) (s : String)
    (h : (scanL matchIsbn10At t).map String.mk = some s) : s ≠ "" := by
  cases hm : scanL matchIsbn10At t with
  | none => rw [hm] at h; exact Option.noConfusion h
  | some cap =>
    rw [hm] at h
    have hc : String.mk cap = s := by simpa using h
    have hlen : cap.length = 10 :=
      scanL_prop matchIsbn10At (fun c => c.length = 10) matchIsbn10At_length t cap hm
    intro he
    rw [← hc] at he
    have hd : cap = [] := congrArg String.data he
    rw [hd] at hlen
    exact absurd hlen (by decide)

theorem isbnFields_spec (text : String) :
    (∀ s, (isbnFields text).1 = some s → (isbnFields text).2.2 = some s) ∧
    ((isbnFields text).1 = none → (isbnFields text).2.2 = (isbnFields text).2.1) := by
  unfold isbnFields
  cases h13 : scanL matchIsbn13At text.toList with
  | none =>
    constructor
    · intro s hs; exact hs
    · intro hn; simpa using hn
  | some cap =>
    constructor
    · intro s hs
      simp only [] at hs ⊢
      have hne : s ≠ "" := scan_isbn10_ne_empty text.toList s hs
      rw [hs]
      simp [jsTruthyS, hne]
    · intro hn
      simp only [] at hn ⊢
      rw [hn]
      simp [jsTruthyS]

theorem matchPages2At_pagesCore :
    ∀ l ds, matchPages2At l = some ds → ∃ l', l' <:+ l ∧ pagesCore l' = some ds := by
  intro l ds h
  unfold matchPages2At at h
  cases hs : stripLitCI ("comprimento".toList) l with
  | none => rw [hs] at h; exact Option.noConfusion h
  | some r =>
    rw [hs] at h
    simp only [] at h
    split_ifs at h with h1
    exact ⟨r.dropWhile isColonWs,
      (List.dropWhile_suffix isColonWs).trans (stripLitCI_suffix _ l r hs), h⟩

theorem pages2_implies_pages1 (l : List Char)
    (h : (scanL matchPages2At l).isSome = true) :
    (scanL matchPages1At l).isSome = true := by
  cases hm : scanL matchPages2At l with
  | none => rw [hm] at h; simp at h
  | some ds =>
    obtain ⟨l0, hs0, hm0⟩ := scanL_some_exists matchPages2At l ds hm
    obtain ⟨l1, hs1, hm1⟩ := matchPages2At_pagesCore l0 ds hm0
    have : (matchPages1At l1).isSome = true := by
      unfold matchPages1At
      rw [hm1]
      rfl
    exact scanL_isSome_of_suffix matchPages1At l l1 (hs1.trans hs0) this

theorem validateAsin_sound (cap : List Char) (a : String)
    (h : validateAsin cap = some a) :
    a.length = 10 ∧ a.toList.all isUpperAlnum = true ∧
      a.toList.all isAsciiUpperB = false := by
  simp only [validateAsin] at h
  split_ifs at h with hc
  cases h
  refine ⟨hc.1.1, hc.1.2, ?_⟩
  cases hb : (cap.map charUpperJS).all isAsciiUpperB with
  | false => exact hb
  | true =>
    exfalso
    apply hc.2
    refine ⟨?_, hb⟩
    intro he
    rw [he] at hc
    exact absurd hc.1.1 (by decide)

theorem extractAsin_sound (text : String) (a : String)
    (h : extractAsin text = some a) :
    a.length = 10 ∧ a.toList.all isUpperAlnum = true ∧
      a.toList.all isAsciiUpperB = false := by
  unfold extractAsin at h
  simp only [] at h
  cases h1 : scanL matchAsin1At text.toList with
  | some cap =>
    rw [h1] at h
    simp only [] at h
    cases h2 : validateAsin cap with
    | some b =>
      rw [h2] at h
      cases h
      exact validateAsin_sound cap a h2
    | none =>
      rw [h2] at h
      simp only [] at h
      cases h3 : scanB matchAsin2At none text.toList with
      | some cap2 =>
        rw [h3] at h
        exact validateAsin_sound cap2 a h
      | none => rw [h3] at h; exact Option.noConfusion h
  | none =>
    rw [h1] at h
    simp only [] at h
    cases h3 : scanB matchAsin2At none text.toList with
    | some cap2 =>
      rw [h3] at h
      exact validateAsin_sound cap2 a h
    | none => rw [h3] at h; exact Option.noConfusion h

theorem nodup_snoc (l : List String) (a : String) (ha : ¬(a ∈ l))
    (hl : l.Nodup) : (l ++ [a]).Nodup := by
  induction l with
  | nil => simp
  | cons c cs ih =>
    rw [List.nodup_cons] at hl
    have hac : ¬(a ∈ cs) := fun hm => ha (List.mem_cons_of_mem c hm)
    have hca : ¬(a = c) := by
      intro he
      subst he
      exact ha (List.mem_cons_self a cs)
    rw [List.cons_append, List.nodup_cons]
    refine ⟨?_, ih hac hl.2⟩
    intro hm
    rcases List.mem_append.mp hm with hm1 | hm2
    · exact hl.1 hm1
    · exact hca (List.mem_singleton.mp hm2).symm

theorem catStep_fold_nodup (normalized : String) :
    ∀ (pairs : List (String × String)) (acc : List String), acc.Nodup →
      (pairs.foldl (catStep normalized) acc).Nodup := by
  intro pairs
  induction pairs with
  | nil => intro acc h; simpa using h
  | cons kv rest ih =>
    intro acc h
    rw [List.foldl_cons]
    apply ih
    unfold catStep
    split_ifs with hc
    · exact nodup_snoc acc kv.2 hc.2 h
    · exact h

theorem extractCategories_aux_nodup :
    ∀ (nodes : List String) (acc : List String), acc.Nodup →
      (nodes.foldl catNodeStep acc).Nodup := by
  intro nodes
  induction nodes with
  | nil => intro acc h; simpa using h
  | cons n rest ih =>
    intro acc h
    rw [List.foldl_cons]
    apply ih
    simp only [catNodeStep]
    split_ifs with hc
    · exact catStep_fold_nodup (toLowerJS (trimJS n)) categoryPairs acc h
    · exact h

theorem extractCategories_nodup (nodes : List String) :
    (extractCategories nodes).Nodup :=
  extractCategories_aux_nodup nodes [] List.nodup_nil

theorem extractCategories_accept (n : String)
    (h : extractCategories [n] ≠ []) : catAcceptB (trimJS n) = true := by
  by_cases hc : catAcceptB (trimJS n) = true
  · exact hc
  · exfalso
    apply h
    simp [extractCategories, catNodeStep, hc]

/-- C1: for every input document, when the record contains isbn it equals
isbn10 whenever isbn10 is present and otherwise equals isbn13, and when
neither isbn10 nor isbn13 was extracted isbn is absent (the second conjunct
propagates absence, since isbn13 absent makes isbn absent too). -/
theorem claim1_isbn_derivation (d : Doc) :
    (∀ s, (parseAmazonBook d).isbn10 = some s → (parseAmazonBook d).isbn = some s) ∧
    ((parseAmazonBook d).isbn10 = none →
      (parseAmazonBook d).isbn = (parseAmazonBook d).isbn13) :=
  isbnFields_spec (detailsTextOf d.details)

/-- Witness for C1 at a concrete document carrying both ISBN labels. -/
theorem claim1_witness : (parseAmazonBook isbnDoc).isbn = some "8556512666" :=
  (claim1_isbn_derivation isbnDoc).1 "8556512666" rfl

/-- C2 counterexample: the details text contains exactly the string the claim
quotes (directional marks included), yet the publisher field is absent, not
Suma: no stripping of the marks happens before pattern matching. -/
theorem claim2_counterexample :
    containsStr (detailsTextOf marksDoc.details)
      "editora\u200F : \u200Fsuma data da publicação" = true ∧
    ¬((parseAmazonBook marksDoc).publisher = some "Suma") ∧
    (parseAmazonBook marksDoc).publisher = none := by
  have hn : (parseAmazonBook marksDoc).publisher = none := rfl
  exact ⟨rfl, by rw [hn]; simp, hn⟩

/-- C2 amended: the extractor strips no directional marks; the mark-bearing
details text yields no publisher, while the mark-free form of the same label
run yields the publisher Suma. -/
theorem claim2_no_stripping :
    (parseAmazonBook marksDoc).publisher = none ∧
    (parseAmazonBook cleanDoc).publisher = some "Suma" :=
  ⟨rfl, rfl⟩

/-- C3: a document with no matching material for any field produces the
record with every key absent (a valid, non-error result by construction of
the total extraction function), and no input can put an empty string in the
title or an empty list in the authors or categories fields: absence is
always expressed by omission. -/
theorem claim3_optional_fields :
    parseAmazonBook emptyDoc = BookRecord.empty ∧
    (∀ d : Doc, ¬((parseAmazonBook d).title = some "")) ∧
    (∀ d : Doc, ¬((parseAmazonBook d).authors = some [])) ∧
    (∀ d : Doc, ¬((parseAmazonBook d).categories = some [])) := by
  refine ⟨rfl, ?_, ?_, ?_⟩
  · intro d h
    have h' : extractTitle d.title = some "" := h
    simp only [extractTitle] at h'
    split_ifs at h' with hs
    exact hs (Option.some.inj h')
  · intro d h
    have h' : extractAuthors d.authorNodes = some [] := h
    simp only [extractAuthors] at h'
    split_ifs at h' with hs
    exact hs (Option.some.inj h')
  · intro d h
    have h' : (if extractCategories d.catNodes = [] then none
        else some (extractCategories d.catNodes)) = some ([] : List String) := h
    split_ifs at h' with hs
    exact hs (Option.some.inj h')

/-- Witness for C3 at the empty document. -/
theorem claim3_witness : ¬((parseAmazonBook emptyDoc).title = some "") :=
  claim3_optional_fields.2.1 emptyDoc

/-- C4: a markup containing only a numeric day-month-year date yields no
publishedDate, although the numeric grammar the claim (and the repository
documentation) lists as the third alternative would match it: the code tries
only the two Portuguese grammars and the English grammar. -/
theorem claim4_numeric_grammar_missing :
    extractPublishedDate "Publicado em: 05/08/2025" = none ∧
    specNumericDateMatches "Publicado em: 05/08/2025" = true :=
  ⟨rfl, rfl⟩

/-- C5: the three quoted date forms all produce the ISO output 2025-08-05,
with the month resolved through the month table and the day zero-padded. -/
theorem claim5_date_iso :
    extractPublishedDate "5 de agosto de 2025" = some "2025-08-05" ∧
    extractPublishedDate "August 5, 2025" = some "2025-08-05" ∧
    extractPublishedDate "5 agosto 2025" = some "2025-08-05" :=
  ⟨rfl, rfl, rfl⟩

/-- C6: every surfaced ASIN is exactly ten upper-cased alphanumeric
characters and not composed solely of letters; the all-letter candidate
HARDCOVERX is rejected by both strategies and never surfaced, while
B07XNZK4L5 is accepted. -/
theorem claim6_asin_validation :
    (∀ text a, extractAsin text = some a →
      a.length = 10 ∧ a.toList.all isUpperAlnum = true ∧
        a.toList.all isAsciiUpperB = false) ∧
    extractAsin "ASIN: HARDCOVERX" = none ∧
    extractAsin "ASIN: B07XNZK4L5" = some "B07XNZK4L5" :=
  ⟨extractAsin_sound, rfl, rfl⟩

/-- Witness for C6 at the accepted concrete token. -/
theorem claim6_witness :
    ("B07XNZK4L5" : String).length = 10 ∧
    ("B07XNZK4L5" : String).toList.all isUpperAlnum = true ∧
    ("B07XNZK4L5" : String).toList.all isAsciiUpperB = false :=
  claim6_asin_validation.1 "ASIN: B07XNZK4L5" "B07XNZK4L5" rfl

/-- C7 counterexample: a details text that contains the quoted ISBN-13 label
but whose first ISBN-13 match is an earlier occurrence stores that earlier
capture, not 9788556512666. -/
theorem claim7_counterexample :
    containsStr "ISBN-13: 1111111111111 e ISBN-13: 978-85-5651-266-6"
      "ISBN-13: 978-85-5651-266-6" = true ∧
    (isbnFields "ISBN-13: 1111111111111 e ISBN-13: 978-85-5651-266-6").2.1 =
      some "1111111111111" ∧
    ¬(some ("1111111111111" : String) = some ("9788556512666" : String)) :=
  ⟨rfl, rfl, by decide⟩

/-- C7 amended: a details text whose first ISBN-13 match is the quoted token
stores isbn13 = 9788556512666 with the hyphens removed and, with no ISBN-10
match present, isbn equals that isbn13 value. -/
theorem claim7_isbn13_roundtrip :
    isbnFields "ISBN-13: 978-85-5651-266-6" =
      (none, some "9788556512666", some "9788556512666") :=
  rfl

/-- C8 counterexample: a breadcrumb node whose lower-cased text contains
livros is nevertheless accepted and contributes a category, because the code
tests the exact capitalized substring Livros. -/
theorem claim8_counterexample :
    containsStr (toLowerJS "livros de ficção") "livros" = true ∧
    extractCategories ["livros de ficção"] = ["Fiction"] :=
  ⟨rfl, rfl⟩

/-- C8 amended: the quoted example produces Fiction and Romance without
duplicates; a node contributes only when it passes the acceptance test
(length strictly between 3 and 50, not containing the exact substring Livros,
lower-cased text containing none of home, kindle, store); and the category
list never contains duplicates. -/
theorem claim8_categories :
    extractCategories ["Livros", "Ficção", "Romance e Ficção"] =
      ["Fiction", "Romance"] ∧
    (∀ n, extractCategories [n] ≠ [] → catAcceptB (trimJS n) = true) ∧
    (∀ nodes, (extractCategories nodes).Nodup) :=
  ⟨rfl, extractCategories_accept, extractCategories_nodup⟩

/-- Witness for C8 at a concrete accepted node. -/
theorem claim8_witness : catAcceptB (trimJS "Ficção") = true :=
  claim8_categories.2.1 "Ficção" (by decide)

/-- C9: when the chosen cover-image attribute starts with an opening brace
and parses as JSON with zero keys, the imageUrl field is absent; the
raw-string fallback fires exactly when parsing fails, and a successful parse
with keys yields the first key, never the raw string branch. -/
theorem claim9_image_json :
    (∀ (d : Doc) (s : String), d.img = some ⟨some s, none, none⟩ →
      startsWithBrace s = true → jsonObjectKeys s = some [] →
      (parseAmazonBook d).imageUrl = none) ∧
    (∀ s, startsWithBrace s = true → jsonObjectKeys s = none →
      imageFromSrc s = some s) ∧
    (∀ s k ks, startsWithBrace s = true → jsonObjectKeys s = some (k :: ks) →
      imageFromSrc s = some k) := by
  refine ⟨?_, ?_, ?_⟩
  · intro d s himg hb hk
    have hne : s ≠ "" := by
      intro he
      rw [he] at hb
      exact absurd hb (by decide)
    have hi : (parseAmazonBook d).imageUrl = extractImage d.img := rfl
    rw [hi, himg]
    simp [extractImage, chooseImgSrc, jsTruthyS, hne, imageFromSrc, hb, hk]
  · intro s hb hk
    simp [imageFromSrc, hb, hk]
  · intro s k ks hb hk
    simp [imageFromSrc, hb, hk]

/-- Witness for C9 at the empty JSON object. -/
theorem claim9_witness : (parseAmazonBook imgEmptyJsonDoc).imageUrl = none :=
  claim9_image_json.1 imgEmptyJsonDoc "{}" rfl rfl rfl

/-- C10: every text the second page-count pattern matches is also matched by
the first pattern, which is tried first, so the extractor agrees with the
variant that omits the second pattern on every input. -/
theorem claim10_second_pages_pattern_redundant :
    (∀ l : List Char, (scanL matchPages2At l).isSome = true →
      (scanL matchPages1At l).isSome = true) ∧
    (∀ text : String, extractPageCount text = extractPageCountNoSecond text) := by
  refine ⟨pages2_implies_pages1, ?_⟩
  intro text
  unfold extractPageCount extractPageCountNoSecond
  cases h1 : scanL matchPages1At text.data with
  | some ds => simp [h1]
  | none =>
    cases h2 : scanL matchPages2At text.data with
    | some ds =>
      exfalso
      have hsome := pages2_implies_pages1 text.data (by rw [h2]; rfl)
      rw [h1] at hsome
      simp at hsome
    | none => simp [h1, h2]

/-- Witness for C10 at a concrete details text matched by both patterns. -/
theorem claim10_witness :
    (scanL matchPages1At ("Comprimento: 224 páginas".toList)).isSome = true ∧
    extractPageCount "Comprimento: 224 páginas" =
      extractPageCountNoSecond "Comprimento: 224 páginas" :=
  ⟨claim10_second_pages_pattern_redundant.1 ("Comprimento: 224 páginas".toList) rfl,
   claim10_second_pages_pattern_redundant.2 "Comprimento: 224 páginas"⟩
